import Mathlib

/-! Verification of the scoring, ranking and insight pipeline of the
North Carolina county financial-resilience dashboard (`src/app.py`).
Real-valued float arithmetic is modelled over `ℚ`; the floating-point
value NaN (produced by `pd.to_numeric(..., errors="coerce")` on a missing
or non-numeric entry, and by the unguarded division `0/0`) is modelled as
`Option.none`. -/

namespace App

/-- Round-to-nearest, ties to even, of a rational to an integer: the rounding
mode used by `numpy.round` and hence by pandas `Series.round`. -/
def rne (x : ℚ) : ℤ :=
  if x - ⌊x⌋ < 1/2 then ⌊x⌋
  else if 1/2 < x - ⌊x⌋ then ⌊x⌋ + 1
  else if ⌊x⌋ % 2 = 0 then ⌊x⌋ else ⌊x⌋ + 1

/-- Rounding to 3 decimal places, as in `.round(3)` on line 132 of `src/app.py`. -/
def round3 (x : ℚ) : ℚ := (rne (1000 * x) : ℚ) / 1000

/-- Weight normalization, lines 76 to 85 of `src/app.py`: if the three slider
values sum to zero they are first replaced by `(1, 0, 0)`; then each is
divided by the (recomputed) total. -/
def normalize_weights (wi wu wc : ℚ) : ℚ × ℚ × ℚ :=
  let w := if wi + wu + wc = 0 then ((1 : ℚ), (0 : ℚ), (0 : ℚ)) else (wi, wu, wc)
  let total := w.1 + w.2.1 + w.2.2
  (w.1 / total, w.2.1 / total, w.2.2 / total)

/-- The resilience-score formula of lines 128 to 132 of `src/app.py`:
`(w_income * Income_Norm + w_unemp * (1 - Unemployment_Norm) + w_cost * (1 - Cost_Norm)).round(3)`,
with the rounding applied once, to the full weighted sum. -/
def Resilience_Score (wi wu wc i u c : ℚ) : ℚ :=
  round3 (wi * i + wu * (1 - u) + wc * (1 - c))

/-- A row of the census dataframe after `pd.to_numeric(..., errors="coerce")`
(line 37 of `src/app.py`): `none` models a missing or non-numeric
`Median_Income` entry, which `coerce` silently turns into NaN. -/
structure RawRegion where
  name : String
  median_income : Option ℚ
deriving DecidableEq

/-- The numeric entries of the `Median_Income` column. pandas `min`/`max`
skip NaN entries (`skipna=True` by default), so they range over exactly
this list. -/
def numericIncomes (rs : List RawRegion) : List ℚ :=
  rs.filterMap (·.median_income)

/-- Minimum of a column, `none` on an empty (or all-NaN) column. -/
def listMin : List ℚ → Option ℚ
  | [] => none
  | x :: xs => some (match listMin xs with | none => x | some m => min x m)

/-- Maximum of a column, `none` on an empty (or all-NaN) column. -/
def listMax : List ℚ → Option ℚ
  | [] => none
  | x :: xs => some (match listMax xs with | none => x | some m => max x m)

/-- Min-max income normalization, lines 120 to 122 of `src/app.py`. The
division is unguarded in the source; a zero divisor gives the float result
NaN (modelled `none`), as does a NaN input or an all-NaN column. -/
def Income_Norm (rs : List RawRegion) (x : Option ℚ) : Option ℚ :=
  match x, listMin (numericIncomes rs), listMax (numericIncomes rs) with
  | some v, some mn, some mx =>
      if mx - mn = 0 then none else some ((v - mn) / (mx - mn))
  | _, _, _ => none

/-- Placeholder constant column, line 125 of `src/app.py`. -/
def Unemployment_Norm : ℚ := 1/2

/-- Placeholder constant column, line 126 of `src/app.py`. -/
def Cost_Norm : ℚ := 1/2

/-- A dataframe row after the score-computation block (lines 120 to 132). -/
structure ScoredRegion where
  name : String
  median_income : Option ℚ
  income_norm : Option ℚ
  score : Option ℚ
deriving DecidableEq

/-- Score computation for one row, given the whole column (for min/max) and
the normalized weight triple. NaN (`none`) propagates from `Income_Norm`
through the float arithmetic and through `round`. -/
def score_region (w : ℚ × ℚ × ℚ) (rs : List RawRegion) (r : RawRegion) : ScoredRegion :=
  let inorm := Income_Norm rs r.median_income
  { name := r.name
    median_income := r.median_income
    income_norm := inorm
    score := inorm.map fun i => Resilience_Score w.1 w.2.1 w.2.2 i Unemployment_Norm Cost_Norm }

/-- The whole score block applied to the dataframe. -/
def score_regions (w : ℚ × ℚ × ℚ) (rs : List RawRegion) : List ScoredRegion :=
  rs.map (score_region w rs)

/-- Comparison used for the ascending argsort of the score column; the rows
being argsorted all carry `some` scores, for which `getD 0` is the score
itself. -/
def leScore (a b : ScoredRegion) : Prop := a.score.getD 0 ≤ b.score.getD 0

instance : DecidableRel leScore := fun a b => inferInstanceAs (Decidable (a.score.getD 0 ≤ b.score.getD 0))

instance : IsTotal ScoredRegion leScore := ⟨fun a b => le_total (a.score.getD 0) (b.score.getD 0)⟩

instance : IsTrans ScoredRegion leScore := ⟨fun _ _ _ hab hbc => le_trans hab hbc⟩

/-- `df.sort_values("Resilience_Score", ascending=False)` (line 153 of
`src/app.py`): pandas argsorts the non-NaN rows ascending, reverses that
order, and appends the NaN rows last (`na_position="last"`). The sort key
is the score only; no other column takes part. numpy's tie order on the
ascending argsort is that of a stable insertion sort at small sizes, which
is what this model uses. -/
def rank_df (rs : List ScoredRegion) : List ScoredRegion :=
  (List.insertionSort leScore (rs.filter fun r => r.score.isSome)).reverse
    ++ rs.filter fun r => r.score.isNone

/-- Python exceptions the lookup expressions can raise. `indexError` is what
`.values[0]` / `.index[0]` on an empty selection raises; `notFoundError`
is the error class the design documents call for, which exists nowhere in
`src/app.py` and is never produced. -/
inductive PyError
  | indexError
  | notFoundError
deriving DecidableEq

/-- First index (0-based) of a row satisfying `p`: models `.index[0]` on a
boolean-mask selection of a frame with a fresh 0-based index. -/
def first_index {α : Type} (p : α → Bool) : List α → Option Nat
  | [] => none
  | x :: xs => if p x then some 0 else (first_index p xs).map (· + 1)

/-- `score = df[df["County"] == selected_county]["Resilience_Score"].values[0]`
(line 146 of `src/app.py`): selecting an absent name gives an empty array,
and `[0]` on it raises `IndexError`. -/
def selected_score (rs : List ScoredRegion) (county : String) : Except PyError (Option ℚ) :=
  match rs.filter fun r => r.name == county with
  | [] => .error .indexError
  | r :: _ => .ok r.score

/-- `rank = rank_df[rank_df["County"] == selected_county].index[0] + 1`
(line 154 of `src/app.py`), applied to an already ranked frame. -/
def rank (sorted : List ScoredRegion) (county : String) : Except PyError Nat :=
  match first_index (fun r => r.name == county) sorted with
  | none => .error .indexError
  | some i => .ok (i + 1)

/-- Insight text, lines 163 to 168 of `src/app.py`: a three-way conditional
on the selected county's `Income_Norm` alone; no other indicator is read. -/
def insight (income_norm : ℚ) : String :=
  if income_norm > 3/4 then "This county has **strong income levels**."
  else if income_norm < 2/5 then "This county has **low income levels**."
  else "This county has **moderate, balanced income levels**."

/-- Score order as displayed: larger scores first, NaN scores last. -/
def score_desc (a b : ScoredRegion) : Prop :=
  match a.score, b.score with
  | some x, some y => y ≤ x
  | some _, none => True
  | none, some _ => False
  | none, none => True

/-! Helper lemmas: evaluating and bounding the rounding function. -/

theorem floor_eq_of {x : ℚ} {n : ℤ} (h1 : (n : ℚ) ≤ x) (h2 : x < n + 1) : ⌊x⌋ = n :=
  Int.floor_eq_iff.mpr ⟨h1, h2⟩

theorem rne_eq_low (n : ℤ) {x : ℚ} (h1 : (n : ℚ) ≤ x) (h2 : x - n < 1/2) : rne x = n := by
  have hf : ⌊x⌋ = n := floor_eq_of h1 (by linarith)
  unfold rne
  rw [hf, if_pos h2]

theorem rne_eq_high (n : ℤ) {x : ℚ} (h1 : (n : ℚ) ≤ x) (h2 : 1/2 < x - n) (h3 : x < n + 1) :
    rne x = n + 1 := by
  have hf : ⌊x⌋ = n := floor_eq_of h1 h3
  unfold rne
  rw [hf, if_neg (by linarith), if_pos h2]

theorem rne_nonneg {x : ℚ} (h : 0 ≤ x) : 0 ≤ rne x := by
  have hf : (0 : ℤ) ≤ ⌊x⌋ := Int.floor_nonneg.mpr h
  unfold rne
  split_ifs <;> omega

theorem rne_le {x : ℚ} {n : ℤ} (h : x ≤ n) : rne x ≤ n := by
  have hfn : ⌊x⌋ ≤ n := by
    have := Int.floor_le_floor h
    rwa [Int.floor_intCast] at this
  have hup : ¬ x - ⌊x⌋ < 1/2 → ⌊x⌋ < n := by
    intro hh
    have h1 : (⌊x⌋ : ℚ) < x := by linarith
    have h2 : (⌊x⌋ : ℚ) < (n : ℚ) := h1.trans_le h
    exact_mod_cast h2
  unfold rne
  split_ifs with hc1 hc2 hc3
  · exact hfn
  · have := hup hc1
    omega
  · exact hfn
  · have := hup hc1
    omega

theorem round3_eq_low (n : ℤ) {x : ℚ} (h1 : (n : ℚ) ≤ 1000 * x) (h2 : 1000 * x - n < 1/2) :
    round3 x = n / 1000 := by
  unfold round3
  rw [rne_eq_low n h1 h2]

theorem round3_eq_high (n : ℤ) {x : ℚ} (h1 : (n : ℚ) ≤ 1000 * x) (h2 : 1/2 < 1000 * x - n)
    (h3 : 1000 * x < n + 1) : round3 x = ((n : ℚ) + 1) / 1000 := by
  unfold round3
  rw [rne_eq_high n h1 h2 h3]
  push_cast
  ring

theorem round3_nonneg {x : ℚ} (h : 0 ≤ x) : 0 ≤ round3 x := by
  unfold round3
  have h1 : (0 : ℤ) ≤ rne (1000 * x) := rne_nonneg (by linarith)
  have h2 : (0 : ℚ) ≤ (rne (1000 * x) : ℚ) := by exact_mod_cast h1
  positivity

theorem round3_le_one {x : ℚ} (h : x ≤ 1) : round3 x ≤ 1 := by
  unfold round3
  have h1 : rne (1000 * x) ≤ (1000 : ℤ) := rne_le (by push_cast; linarith)
  rw [div_le_one (by norm_num)]
  exact_mod_cast h1

/-! Helper lemmas: column minimum and maximum. -/

theorem listMin_eq_none {l : List ℚ} (h : listMin l = none) : l = [] := by
  cases l with
  | nil => rfl
  | cons a t => simp [listMin] at h

theorem listMin_le {l : List ℚ} {m : ℚ} (hm : listMin l = some m) : ∀ x ∈ l, m ≤ x := by
  induction l generalizing m with
  | nil => simp [listMin] at hm
  | cons a t ih =>
    intro x hx
    rw [List.mem_cons] at hx
    unfold listMin at hm
    cases ht : listMin t with
    | none =>
      rw [ht] at hm
      have hte : t = [] := listMin_eq_none ht
      rcases hx with hx | hx
      · simp only [Option.some_inj] at hm
        rw [← hm, hx]
      · rw [hte] at hx
        simp at hx
    | some mt =>
      rw [ht] at hm
      simp only [Option.some_inj] at hm
      rcases hx with hx | hx
      · rw [← hm, hx]
        exact min_le_left a mt
      · exact le_trans (hm ▸ min_le_right a mt) (ih ht x hx)

theorem listMin_mem {l : List ℚ} {m : ℚ} (hm : listMin l = some m) : m ∈ l := by
  induction l generalizing m with
  | nil => simp [listMin] at hm
  | cons a t ih =>
    unfold listMin at hm
    cases ht : listMin t with
    | none =>
      rw [ht] at hm
      simp only [Option.some_inj] at hm
      rw [← hm]
      exact List.mem_cons_self a t
    | some mt =>
      rw [ht] at hm
      simp only [Option.some_inj] at hm
      rcases min_choice a mt with hc | hc
      · rw [← hm, hc]
        exact List.mem_cons_self a t
      · rw [← hm, hc]
        exact List.mem_cons_of_mem a (ih ht)

theorem listMax_eq_none {l : List ℚ} (h : listMax l = none) : l = [] := by
  cases l with
  | nil => rfl
  | cons a t => simp [listMax] at h

theorem listMax_ge {l : List ℚ} {m : ℚ} (hm : listMax l = some m) : ∀ x ∈ l, x ≤ m := by
  induction l generalizing m with
  | nil => simp [listMax] at hm
  | cons a t ih =>
    intro x hx
    rw [List.mem_cons] at hx
    unfold listMax at hm
    cases ht : listMax t with
    | none =>
      rw [ht] at hm
      have hte : t = [] := listMax_eq_none ht
      rcases hx with hx | hx
      · simp only [Option.some_inj] at hm
        rw [← hm, hx]
      · rw [hte] at hx
        simp at hx
    | some mt =>
      rw [ht] at hm
      simp only [Option.some_inj] at hm
      rcases hx with hx | hx
      · rw [← hm, hx]
        exact le_max_left a mt
      · exact le_trans (ih ht x hx) (hm ▸ le_max_right a mt)

theorem listMax_mem {l : List ℚ} {m : ℚ} (hm : listMax l = some m) : m ∈ l := by
  induction l generalizing m with
  | nil => simp [listMax] at hm
  | cons a t ih =>
    unfold listMax at hm
    cases ht : listMax t with
    | none =>
      rw [ht] at hm
      simp only [Option.some_inj] at hm
      rw [← hm]
      exact List.mem_cons_self a t
    | some mt =>
      rw [ht] at hm
      simp only [Option.some_inj] at hm
      rcases max_choice a mt with hc | hc
      · rw [← hm, hc]
        exact List.mem_cons_self a t
      · rw [← hm, hc]
        exact List.mem_cons_of_mem a (ih ht)

/-- Reducing `Income_Norm` once the column extrema are known. -/
theorem Income_Norm_eq {rs : List RawRegion} {mn mx : ℚ} (v : ℚ)
    (hmn : listMin (numericIncomes rs) = some mn)
    (hmx : listMax (numericIncomes rs) = some mx) :
    Income_Norm rs (some v) = if mx - mn = 0 then none else some ((v - mn) / (mx - mn)) := by
  unfold Income_Norm
  rw [hmn, hmx]

/-! Helper lemmas: the ranking. -/

theorem rank_df_perm (rs : List ScoredRegion) : List.Perm (rank_df rs) rs := by
  unfold rank_df
  have h1 : List.Perm (List.insertionSort leScore (rs.filter fun r => r.score.isSome)).reverse
      (rs.filter fun r => r.score.isSome) :=
    (List.reverse_perm _).trans (List.perm_insertionSort _ _)
  have h2 : (fun r : ScoredRegion => r.score.isNone) = (fun r : ScoredRegion => !r.score.isSome) := by
    funext r
    cases r.score <;> rfl
  rw [h2]
  exact (h1.append (List.Perm.refl _)).trans (List.filter_append_perm _ rs)

theorem mem_sort_isSome {rs : List ScoredRegion} {a : ScoredRegion}
    (ha : a ∈ List.insertionSort leScore (rs.filter fun r => r.score.isSome)) :
    a.score.isSome = true :=
  (List.mem_filter.mp ((List.perm_insertionSort leScore _).mem_iff.mp ha)).2

theorem score_desc_of_le {a b : ScoredRegion} {x y : ℚ}
    (hax : a.score = some x) (hby : b.score = some y) (h : y ≤ x) : score_desc a b := by
  unfold score_desc
  rw [hax, hby]
  exact h

theorem score_desc_some_none {a b : ScoredRegion} {x : ℚ}
    (hax : a.score = some x) (hb : b.score = none) : score_desc a b := by
  unfold score_desc
  rw [hax, hb]
  trivial

theorem score_desc_none_none {a b : ScoredRegion}
    (ha : a.score = none) (hb : b.score = none) : score_desc a b := by
  unfold score_desc
  rw [ha, hb]
  trivial

theorem rank_df_sorted (rs : List ScoredRegion) : List.Pairwise score_desc (rank_df rs) := by
  unfold rank_df
  rw [List.pairwise_append]
  refine ⟨?_, ?_, ?_⟩
  · rw [List.pairwise_reverse]
    have hs : List.Pairwise leScore
        (List.insertionSort leScore (rs.filter fun r => r.score.isSome)) :=
      List.sorted_insertionSort leScore _
    refine hs.imp_of_mem ?_
    intro a b hma hmb hab
    obtain ⟨x, hx⟩ := Option.isSome_iff_exists.mp (mem_sort_isSome hma)
    obtain ⟨y, hy⟩ := Option.isSome_iff_exists.mp (mem_sort_isSome hmb)
    unfold leScore at hab
    rw [hx, hy] at hab
    simp only [Option.getD_some] at hab
    exact score_desc_of_le hy hx hab
  · have hall : ∀ a ∈ rs.filter (fun r => r.score.isNone),
        ∀ b ∈ rs.filter (fun r => r.score.isNone), score_desc a b := by
      intro a ha b hb
      have hna : a.score = none := Option.isNone_iff_eq_none.mp (List.mem_filter.mp ha).2
      have hnb : b.score = none := Option.isNone_iff_eq_none.mp (List.mem_filter.mp hb).2
      exact score_desc_none_none hna hnb
    exact List.pairwise_of_forall_mem_list hall
  · intro a ha b hb
    rw [List.mem_reverse] at ha
    obtain ⟨x, hx⟩ := Option.isSome_iff_exists.mp (mem_sort_isSome ha)
    have hnb : b.score = none := Option.isNone_iff_eq_none.mp (List.mem_filter.mp hb).2
    exact score_desc_some_none hx hnb

theorem first_index_eq_none {α : Type} {p : α → Bool} {l : List α}
    (h : ∀ a ∈ l, ¬ p a = true) : first_index p l = none := by
  induction l with
  | nil => rfl
  | cons x t ih =>
    unfold first_index
    rw [if_neg (h x (List.mem_cons_self x t)), ih fun a ha => h a (List.mem_cons_of_mem x ha)]
    rfl

theorem first_index_get {l : List ScoredRegion} (hnd : (l.map (fun r => r.name)).Nodup)
    {i : Nat} (hi : i < l.length) :
    first_index (fun r => r.name == (l.get ⟨i, hi⟩).name) l = some i := by
  induction l generalizing i with
  | nil => simp at hi
  | cons x t ih =>
    rw [List.map_cons, List.nodup_cons] at hnd
    cases i with
    | zero =>
      have h0 : (x :: t).get ⟨0, hi⟩ = x := rfl
      unfold first_index
      rw [h0, if_pos (beq_self_eq_true x.name)]
    | succ j =>
      have hj : j < t.length := by simpa using hi
      have hget : (x :: t).get ⟨j + 1, hi⟩ = t.get ⟨j, hj⟩ := rfl
      have hmem : ((x :: t).get ⟨j + 1, hi⟩).name ∈ t.map (fun r => r.name) := by
        rw [hget]
        exact List.mem_map_of_mem _ (t.get_mem j hj)
      have hneq : x.name ≠ ((x :: t).get ⟨j + 1, hi⟩).name := fun hc => hnd.1 (hc ▸ hmem)
      unfold first_index
      rw [if_neg (by rw [beq_eq_false_iff_ne.mpr hneq]; exact Bool.false_ne_true)]
      rw [hget, ih hnd.2 hj]
      rfl

/-! The claims. -/

/-- Claim C1: the resilience score is
`w_income * income_norm + w_unemployment * (1 - unemployment_norm) + w_cost * (1 - cost_norm)`
with the 3-decimal rounding applied once to the full weighted sum (the last
conjunct shows that rounding each term instead would give a different value);
the inputs income 0.8, unemployment 0.2, cost 0.3 with raw weights
(0.4, 0.3, 0.3) normalize to those same weights and yield score 0.77. -/
theorem score_formula_and_scenario :
    (∀ wi wu wc i u c : ℚ,
        Resilience_Score wi wu wc i u c = round3 (wi * i + wu * (1 - u) + wc * (1 - c)))
    ∧ normalize_weights (2/5) (3/10) (3/10) = (2/5, 3/10, 3/10)
    ∧ Resilience_Score (2/5) (3/10) (3/10) (4/5) (1/5) (3/10) = 77/100
    ∧ round3 (1/3 * (1/2 : ℚ)) + round3 (1/3 * (1 - 1/2 : ℚ)) + round3 (1/3 * (1 - 1/2 : ℚ))
        ≠ Resilience_Score (1/3) (1/3) (1/3) (1/2) (1/2) (1/2) := by
  refine ⟨fun wi wu wc i u c => rfl, by norm_num [normalize_weights], ?_, ?_⟩
  · have harg : (2/5 : ℚ) * (4/5) + 3/10 * (1 - 1/5) + 3/10 * (1 - 3/10) = 77/100 := by
      norm_num
    rw [Resilience_Score, harg, round3_eq_low 770 (by norm_num) (by norm_num)]
    norm_num
  · have hl : round3 (1/3 * (1/2 : ℚ)) = 167/1000 := by
      have h6 : (1 : ℚ)/3 * (1/2) = 1/6 := by norm_num
      rw [h6, round3_eq_high 166 (by norm_num) (by norm_num) (by norm_num)]
      norm_num
    have hl2 : round3 (1/3 * (1 - 1/2 : ℚ)) = 167/1000 := by
      have h6 : (1 : ℚ)/3 * (1 - 1/2) = 1/6 := by norm_num
      rw [h6, round3_eq_high 166 (by norm_num) (by norm_num) (by norm_num)]
      norm_num
    have hr : Resilience_Score (1/3) (1/3) (1/3) (1/2) (1/2) (1/2) = 1/2 := by
      have harg : (1/3 : ℚ) * (1/2) + 1/3 * (1 - 1/2) + 1/3 * (1 - 1/2) = 1/2 := by norm_num
      rw [Resilience_Score, harg, round3_eq_low 500 (by norm_num) (by norm_num)]
      norm_num
    rw [hl, hl2, hr]
    norm_num

/-- Claim C4: when the three raw weight inputs are all zero, weight
normalization does not fail and returns exactly `(1, 0, 0)`. -/
theorem zero_weights_fallback : normalize_weights 0 0 0 = (1, 0, 0) := by
  norm_num [normalize_weights]

/-- Claim C5: for non-negative raw weights, not all zero, normalization
divides each raw weight by the sum, and the normalized triple sums to 1
(hence trivially to 1 within the 1e-9 tolerance). -/
theorem normalize_sums_to_one (wi wu wc : ℚ) (hwi : 0 ≤ wi) (hwu : 0 ≤ wu) (hwc : 0 ≤ wc)
    (hnz : ¬(wi = 0 ∧ wu = 0 ∧ wc = 0)) :
    normalize_weights wi wu wc
        = (wi / (wi + wu + wc), wu / (wi + wu + wc), wc / (wi + wu + wc))
    ∧ (normalize_weights wi wu wc).1 + (normalize_weights wi wu wc).2.1
        + (normalize_weights wi wu wc).2.2 = 1
    ∧ |(normalize_weights wi wu wc).1 + (normalize_weights wi wu wc).2.1
        + (normalize_weights wi wu wc).2.2 - 1| ≤ 1 / 1000000000 := by
  have hs : wi + wu + wc ≠ 0 := by
    intro h
    exact hnz ⟨le_antisymm (by linarith) hwi, le_antisymm (by linarith) hwu,
      le_antisymm (by linarith) hwc⟩
  have h1 : normalize_weights wi wu wc
      = (wi / (wi + wu + wc), wu / (wi + wu + wc), wc / (wi + wu + wc)) := by
    simp only [normalize_weights]
    rw [if_neg hs]
  have h2 : (normalize_weights wi wu wc).1 + (normalize_weights wi wu wc).2.1
      + (normalize_weights wi wu wc).2.2 = 1 := by
    rw [h1]
    show wi / (wi + wu + wc) + wu / (wi + wu + wc) + wc / (wi + wu + wc) = 1
    rw [div_add_div_same, div_add_div_same, div_self hs]
  exact ⟨h1, h2, by rw [h2]; norm_num⟩

/-- Witness for C5 at the concrete raw triple (1/2, 1/4, 1/4). -/
theorem normalize_sums_to_one_witness :
    (normalize_weights (1/2) (1/4) (1/4)).1 + (normalize_weights (1/2) (1/4) (1/4)).2.1
        + (normalize_weights (1/2) (1/4) (1/4)).2.2 = 1 :=
  (normalize_sums_to_one (1/2) (1/4) (1/4) (by norm_num) (by norm_num) (by norm_num)
    (by norm_num)).2.1

/-- Claim C6: for indicators in the unit interval and a valid weight set
(non-negative components summing to 1), the resilience score lies in [0, 1]. -/
theorem score_in_unit_interval (wi wu wc i u c : ℚ)
    (hwi : 0 ≤ wi) (hwu : 0 ≤ wu) (hwc : 0 ≤ wc) (hsum : wi + wu + wc = 1)
    (hi0 : 0 ≤ i) (hi1 : i ≤ 1) (hu0 : 0 ≤ u) (hu1 : u ≤ 1) (hc0 : 0 ≤ c) (hc1 : c ≤ 1) :
    0 ≤ Resilience_Score wi wu wc i u c ∧ Resilience_Score wi wu wc i u c ≤ 1 := by
  have hlo : 0 ≤ wi * i + wu * (1 - u) + wc * (1 - c) :=
    add_nonneg (add_nonneg (mul_nonneg hwi hi0) (mul_nonneg hwu (by linarith)))
      (mul_nonneg hwc (by linarith))
  have e1 : wi * i ≤ wi := mul_le_of_le_one_right hwi hi1
  have e2 : wu * (1 - u) ≤ wu := mul_le_of_le_one_right hwu (by linarith)
  have e3 : wc * (1 - c) ≤ wc := mul_le_of_le_one_right hwc (by linarith)
  have hhi : wi * i + wu * (1 - u) + wc * (1 - c) ≤ 1 := by linarith
  exact ⟨round3_nonneg hlo, round3_le_one hhi⟩

/-- Witness for C6 at the scenario weights and indicators. -/
theorem score_in_unit_interval_witness :
    0 ≤ Resilience_Score (2/5) (3/10) (3/10) (4/5) (1/5) (3/10)
    ∧ Resilience_Score (2/5) (3/10) (3/10) (4/5) (1/5) (3/10) ≤ 1 :=
  score_in_unit_interval (2/5) (3/10) (3/10) (4/5) (1/5) (3/10) (by norm_num) (by norm_num)
    (by norm_num) (by norm_num) (by norm_num) (by norm_num) (by norm_num) (by norm_num)
    (by norm_num) (by norm_num)

/-- Claim C9: the unemployment and cost columns entering the score are the
placeholder constant 0.5, so every region's score is
`round3 (w_income * income_norm + (w_unemployment + w_cost) / 2)`,
independent of any unemployment or cost-of-living data (of which the data
model has none). -/
theorem placeholder_half_score (wi wu wc : ℚ) (rs : List RawRegion) (r : RawRegion) :
    (score_region (wi, wu, wc) rs r).score
      = (Income_Norm rs r.median_income).map fun inc => round3 (wi * inc + (wu + wc) / 2) := by
  have hval : ∀ inc : ℚ,
      Resilience_Score wi wu wc inc Unemployment_Norm Cost_Norm
        = round3 (wi * inc + (wu + wc) / 2) := by
    intro inc
    unfold Resilience_Score Unemployment_Norm Cost_Norm
    congr 1
    ring
  simp only [score_region]
  cases Income_Norm rs r.median_income with
  | none => rfl
  | some inc => simp [hval inc]

/-- Claim C2 (amended): the ranking orders rows by score descending (rows
with NaN score last); the sort key is the score alone, so equal scores keep
no name-based order (the counterexample shows the tie between "Adams" and
"Baker" resolved against name order); the assigned ranks are the contiguous
run 1..N with no duplicates. -/
theorem rank_order_and_contiguity (rs : List ScoredRegion)
    (hnd : (rs.map (fun r => r.name)).Nodup) :
    List.Perm (rank_df rs) rs
    ∧ List.Pairwise score_desc (rank_df rs)
    ∧ ∀ i : Nat, ∀ hi : i < (rank_df rs).length,
        rank (rank_df rs) (((rank_df rs).get ⟨i, hi⟩).name) = .ok (i + 1) := by
  have hperm := rank_df_perm rs
  refine ⟨hperm, rank_df_sorted rs, ?_⟩
  have hnd' : ((rank_df rs).map (fun r => r.name)).Nodup :=
    ((hperm.map (fun r => r.name)).symm).nodup hnd
  intro i hi
  unfold rank
  rw [first_index_get hnd' hi]

/-- Witness for C2 (amended) on a concrete two-row frame. -/
theorem rank_order_witness :
    List.Perm
      (rank_df [⟨"Adams", some 1, some (1/2), some (1/2)⟩,
        ⟨"Baker", some 1, some (1/2), some (1/2)⟩])
      [⟨"Adams", some 1, some (1/2), some (1/2)⟩,
        ⟨"Baker", some 1, some (1/2), some (1/2)⟩] :=
  (rank_order_and_contiguity _ (by decide)).1

/-- Counterexample to C2 as stated: two rows with the equal score 0.50 named
"Adams" and "Baker", fed in that order, come out with "Adams" ranked 2 and
"Baker" ranked 1 — the code has no lexicographic tie-break. -/
theorem rank_tie_counterexample :
    rank (rank_df [⟨"Adams", some 1, some (1/2), some (1/2)⟩,
        ⟨"Baker", some 1, some (1/2), some (1/2)⟩]) "Adams" = .ok 2
    ∧ rank (rank_df [⟨"Adams", some 1, some (1/2), some (1/2)⟩,
        ⟨"Baker", some 1, some (1/2), some (1/2)⟩]) "Baker" = .ok 1 := by
  have h : rank_df [⟨"Adams", some 1, some (1/2), some (1/2)⟩,
        ⟨"Baker", some 1, some (1/2), some (1/2)⟩]
      = [⟨"Baker", some 1, some (1/2), some (1/2)⟩,
        ⟨"Adams", some 1, some (1/2), some (1/2)⟩] := by
    norm_num [rank_df, List.insertionSort, List.orderedInsert, leScore, List.filter]
  rw [h]
  exact ⟨rfl, rfl⟩

/-- Claim C3 (amended): the insight is a three-way conditional on the
selected county's income normalization alone — income over 0.75 gives
"This county has **strong income levels**.", under 0.4 gives
"This county has **low income levels**.", anything else gives
"This county has **moderate, balanced income levels**."; unemployment and
cost indicators play no part. -/
theorem insight_income_only (i : ℚ) :
    (3/4 < i → insight i = "This county has **strong income levels**.")
    ∧ (i < 2/5 → insight i = "This county has **low income levels**.")
    ∧ (2/5 ≤ i → i ≤ 3/4 →
        insight i = "This county has **moderate, balanced income levels**.") := by
  refine ⟨fun h => ?_, fun h => ?_, fun h1 h2 => ?_⟩
  · unfold insight
    rw [if_pos h]
  · unfold insight
    rw [if_neg (not_lt.mpr (by linarith)), if_pos h]
  · unfold insight
    rw [if_neg (not_lt.mpr h2), if_neg (not_lt.mpr h1)]

/-- Witness for C3 (amended) at income normalization 0.8. -/
theorem insight_income_only_witness :
    insight (4/5) = "This county has **strong income levels**." :=
  (insight_income_only (4/5)).1 (by norm_num)

/-- Counterexample to C3 as stated: at indicators (0.8, 0.2, 0.3) the code
produces "This county has **strong income levels**." (a function of income
alone), not the claimed three-phrase joined string. -/
theorem insight_counterexample :
    insight (4/5) = "This county has **strong income levels**."
    ∧ insight (4/5)
        ≠ "strong income levels, very low unemployment, and affordable cost of living." := by
  have h : insight (4/5) = "This county has **strong income levels**." := by
    unfold insight
    rw [if_pos (by norm_num)]
  refine ⟨h, ?_⟩
  rw [h]
  decide

/-- Claim C7 (amended): a missing or non-numeric `Median_Income` is coerced
to NaN, so the affected region's income normalization and score are NaN
(`none`) — no exception of any kind is raised and the value is not treated
as zero — while every other region's row is computed exactly as it would be
without the bad region present (the column min and max skip NaN). -/
theorem nan_score_isolation (w : ℚ × ℚ × ℚ) (rs1 rs2 : List RawRegion) (bad : RawRegion)
    (hbad : bad.median_income = none) :
    (score_region w (rs1 ++ bad :: rs2) bad).score = none
    ∧ (score_region w (rs1 ++ bad :: rs2) bad).income_norm = none
    ∧ ∀ r : RawRegion, score_region w (rs1 ++ bad :: rs2) r = score_region w (rs1 ++ rs2) r := by
  have hcol : numericIncomes (rs1 ++ bad :: rs2) = numericIncomes (rs1 ++ rs2) := by
    unfold numericIncomes
    rw [List.filterMap_append, List.filterMap_append, List.filterMap_cons_none hbad]
  have hnan : Income_Norm (rs1 ++ bad :: rs2) bad.median_income = none := by
    rw [hbad]
    rfl
  have hbadreg : score_region w (rs1 ++ bad :: rs2) bad
      = { name := bad.name, median_income := bad.median_income,
          income_norm := none, score := none } := by
    simp only [score_region]
    rw [hnan]
    rfl
  refine ⟨by rw [hbadreg], by rw [hbadreg], ?_⟩
  intro r
  have hnorm : Income_Norm (rs1 ++ bad :: rs2) r.median_income
      = Income_Norm (rs1 ++ rs2) r.median_income := by
    unfold Income_Norm
    rw [hcol]
  simp only [score_region]
  rw [hnorm]

/-- Witness for C7 (amended) with one NaN region between two numeric ones. -/
theorem nan_score_isolation_witness :
    (score_region ((1 : ℚ), (0 : ℚ), (0 : ℚ))
      ([⟨"Wake", some 2⟩] ++ ⟨"Ghost", none⟩ :: [⟨"Dare", some 0⟩]) ⟨"Ghost", none⟩).score
      = none :=
  (nan_score_isolation (1, 0, 0) [⟨"Wake", some 2⟩] [⟨"Dare", some 0⟩] ⟨"Ghost", none⟩ rfl).1

/-- Counterexample to C7 as stated: with a non-numeric income for "Ghost",
the whole batch computes successfully — no `InvalidIndicatorError` (or any
error) occurs anywhere in the code; "Ghost" silently gets a NaN score and
the other regions compute normally. -/
theorem nan_silent_counterexample :
    score_regions (1, 0, 0) [⟨"Wake", some 2⟩, ⟨"Ghost", none⟩, ⟨"Dare", some 0⟩]
      = [⟨"Wake", some 2, some 1, some 1⟩, ⟨"Ghost", none, none, none⟩,
         ⟨"Dare", some 0, some 0, some 0⟩] := by
  have r1 : round3 1 = 1 := by
    rw [round3_eq_low 1000 (by norm_num) (by norm_num)]
    norm_num
  have r0 : round3 0 = 0 := by
    rw [round3_eq_low 0 (by norm_num) (by norm_num)]
    norm_num
  norm_num [score_regions, score_region, Income_Norm, numericIncomes, List.filterMap, listMin,
    listMax, min_def, max_def, Resilience_Score, Unemployment_Norm, Cost_Norm, r1, r0]

/-- Claim C8 (amended): looking up a region name that is not in the
collection fails, but with an `IndexError` from indexing the empty
selection — the code has no `NotFoundError`. -/
theorem absent_name_index_error (rs : List ScoredRegion) (county : String)
    (h : ∀ r ∈ rs, r.name ≠ county) :
    selected_score rs county = .error .indexError
    ∧ rank (rank_df rs) county = .error .indexError := by
  constructor
  · unfold selected_score
    have hfil : rs.filter (fun r => r.name == county) = [] :=
      List.filter_eq_nil_iff.mpr fun r hr => by
        simp only [beq_iff_eq]
        exact h r hr
    rw [hfil]
  · unfold rank
    have habs : first_index (fun r => r.name == county) (rank_df rs) = none :=
      first_index_eq_none fun a ha => by
        simp only [beq_iff_eq]
        exact h a ((rank_df_perm rs).mem_iff.mp ha)
    rw [habs]

/-- Witness for C8 (amended) on a concrete one-row frame. -/
theorem absent_name_index_error_witness :
    selected_score [⟨"Wake", some 2, some 1, some 1⟩] "Atlantis" = .error .indexError
    ∧ rank (rank_df [⟨"Wake", some 2, some 1, some 1⟩]) "Atlantis" = .error .indexError :=
  absent_name_index_error [⟨"Wake", some 2, some 1, some 1⟩] "Atlantis" (by decide)

/-- Counterexample to C8 as stated: the failure for an absent name is an
`IndexError`, not the claimed `NotFoundError`. -/
theorem absent_name_counterexample :
    selected_score [⟨"Wake", some 2, some 1, some 1⟩] "Atlantis" ≠ .error .notFoundError
    ∧ selected_score [⟨"Wake", some 2, some 1, some 1⟩] "Atlantis" = .error .indexError := by
  have he : selected_score [⟨"Wake", some 2, some 1, some 1⟩] "Atlantis"
      = .error .indexError := rfl
  refine ⟨?_, he⟩
  rw [he]
  intro h
  exact PyError.noConfusion (Except.error.inj h)

/-- Claim C10: the income indicator is min-max normalized over the column:
with at least two distinct numeric incomes, every region's normalized
income is in [0, 1], a region holding the column maximum gets exactly 1 and
one holding the minimum gets exactly 0; when all numeric incomes are equal
the unguarded division has a zero divisor and the result is NaN (`none`),
not an error. -/
theorem income_norm_minmax (rs : List RawRegion) :
    ((∃ a ∈ numericIncomes rs, ∃ b ∈ numericIncomes rs, a ≠ b) →
      ∀ r ∈ rs, ∀ v : ℚ, r.median_income = some v →
        (∃ q, Income_Norm rs r.median_income = some q ∧ 0 ≤ q ∧ q ≤ 1)
        ∧ (listMax (numericIncomes rs) = some v → Income_Norm rs r.median_income = some 1)
        ∧ (listMin (numericIncomes rs) = some v → Income_Norm rs r.median_income = some 0))
    ∧ (∀ c : ℚ, (∀ v ∈ numericIncomes rs, v = c) →
        ∀ r ∈ rs, r.median_income = some c → Income_Norm rs r.median_income = none) := by
  constructor
  · rintro ⟨a, ha, b, hb, hab⟩ r hr v hv
    obtain ⟨mn, hmn⟩ : ∃ mn, listMin (numericIncomes rs) = some mn := by
      cases hc : listMin (numericIncomes rs) with
      | none =>
        rw [listMin_eq_none hc] at ha
        simp at ha
      | some m => exact ⟨m, rfl⟩
    obtain ⟨mx, hmx⟩ : ∃ mx, listMax (numericIncomes rs) = some mx := by
      cases hc : listMax (numericIncomes rs) with
      | none =>
        rw [listMax_eq_none hc] at ha
        simp at ha
      | some m => exact ⟨m, rfl⟩
    have hminmax : mn < mx := by
      rcases lt_or_gt_of_ne hab with hlt | hgt
      · exact lt_of_le_of_lt (listMin_le hmn a ha) (lt_of_lt_of_le hlt (listMax_ge hmx b hb))
      · exact lt_of_le_of_lt (listMin_le hmn b hb) (lt_of_lt_of_le hgt (listMax_ge hmx a ha))
    have hdenne : mx - mn ≠ 0 := sub_ne_zero.mpr (ne_of_gt hminmax)
    have hdenpos : 0 < mx - mn := sub_pos.mpr hminmax
    have hvmem : v ∈ numericIncomes rs := List.mem_filterMap.mpr ⟨r, hr, hv⟩
    have hnorm : Income_Norm rs r.median_income = some ((v - mn) / (mx - mn)) := by
      rw [hv, Income_Norm_eq v hmn hmx, if_neg hdenne]
    refine ⟨⟨(v - mn) / (mx - mn), hnorm, ?_, ?_⟩, ?_, ?_⟩
    · exact div_nonneg (sub_nonneg.mpr (listMin_le hmn v hvmem)) (le_of_lt hdenpos)
    · rw [div_le_one hdenpos]
      exact sub_le_sub_right (listMax_ge hmx v hvmem) mn
    · intro hvm
      have hveq : mx = v := by
        rw [hmx] at hvm
        exact Option.some_inj.mp hvm
      rw [hnorm, ← hveq]
      exact congrArg some (div_self hdenne)
    · intro hvn
      have hveq : mn = v := by
        rw [hmn] at hvn
        exact Option.some_inj.mp hvn
      rw [hnorm, ← hveq]
      exact congrArg some (by rw [sub_self, zero_div])
  · intro c hall r hr hv
    have hcmem : c ∈ numericIncomes rs := List.mem_filterMap.mpr ⟨r, hr, hv⟩
    obtain ⟨mn, hmn⟩ : ∃ mn, listMin (numericIncomes rs) = some mn := by
      cases hc : listMin (numericIncomes rs) with
      | none =>
        rw [listMin_eq_none hc] at hcmem
        simp at hcmem
      | some m => exact ⟨m, rfl⟩
    obtain ⟨mx, hmx⟩ : ∃ mx, listMax (numericIncomes rs) = some mx := by
      cases hc : listMax (numericIncomes rs) with
      | none =>
        rw [listMax_eq_none hc] at hcmem
        simp at hcmem
      | some m => exact ⟨m, rfl⟩
    have h1 : mn = c := hall mn (listMin_mem hmn)
    have h2 : mx = c := hall mx (listMax_mem hmx)
    rw [hv, Income_Norm_eq c hmn hmx, if_pos (by rw [h1, h2, sub_self])]

/-- Witness for C10: a two-region collection with distinct incomes where the
maximal region normalizes to 1, and an all-equal collection where the
normalization is NaN. -/
theorem income_norm_minmax_witness :
    Income_Norm [⟨"A", some 1⟩, ⟨"B", some 0⟩] (some 1) = some 1
    ∧ Income_Norm [⟨"C", some 5⟩, ⟨"D", some 5⟩] (some 5) = none := by
  constructor
  · exact ((income_norm_minmax [⟨"A", some 1⟩, ⟨"B", some 0⟩]).1
      ⟨1, List.mem_cons_self 1 [0], 0, List.mem_cons_of_mem 1 (List.mem_cons_self 0 []),
        by norm_num⟩
      ⟨"A", some 1⟩ (List.mem_cons_self _ _) 1 rfl).2.1
      (by norm_num [numericIncomes, List.filterMap, listMax, max_def])
  · refine (income_norm_minmax [⟨"C", some 5⟩, ⟨"D", some 5⟩]).2 5 ?_
      ⟨"C", some 5⟩ (List.mem_cons_self _ _) rfl
    intro v hv
    have hv2 : v ∈ [(5 : ℚ), 5] := hv
    rcases List.mem_cons.mp hv2 with h | h
    · exact h
    · rcases List.mem_cons.mp h with h2 | h2
      · exact h2
      · simp at h2

end App
